import Mathlib

/-!
# Verification of the course-schedule extraction pipeline

A shallow embedding of the schedule pipeline (`vorlesungen2.py`, with
`ai_studio_code-3.py` as a behaviourally equivalent variant for the parts
both share): title cleaning, event-record construction, location
resolution, holiday-week inference, and expansion of session records into
dated calendar occurrences.

Calendar arithmetic models Python's `datetime`: dates are day numbers
counted from 0000-03-01 (day 0) in the proleptic Gregorian calendar, the
same ordinal arithmetic `datetime.date` uses (shifted by a constant);
`datetime.strptime`/`strftime` are modelled character by character for the
fixed formats the program uses.  Python's `\d`, `\s` and `\w` regex
classes and `str.strip` are modelled over their ASCII parts (the inputs
the program handles are ASCII apart from literal keywords, which are
matched verbatim).
-/

/-! ## Calendar arithmetic (model of Python `datetime` ordinals) -/

/-- Days from era start (a 400-year Gregorian cycle) to the start of
shifted year `y` (shifted years run March..February). -/
def db (y : Nat) : Nat := 365 * y + y / 4 - y / 100

/-- Recover the shifted year-of-era from a day-of-era. -/
def yoeF (doe : Nat) : Nat := (doe - doe / 1460 + doe / 36524 - doe / 146096) / 365

/-- 1 when shifted year-of-era `y` contains a Feb 29 (i.e. civil year
`y + 1` of the era is a leap year), else 0. -/
def leapBit (y : Nat) : Nat :=
  if (y + 1) % 4 = 0 ∧ ((y + 1) % 100 ≠ 0 ∨ y + 1 = 400) then 1 else 0

/-- Day number (days since 0000-03-01) of the civil date `y-m-d`,
proleptic Gregorian.  This is Python's `date.toordinal()` up to the
constant 306 (`days_from_civil y m d = date(y,m,d).toordinal() + 306`). -/
def days_from_civil (y m d : Nat) : Nat :=
  let ys := if m ≤ 2 then y - 1 else y
  let era := ys / 400
  let yoe := ys % 400
  let mp := if 2 < m then m - 3 else m + 9
  let doy := (153 * mp + 2) / 5 + d - 1
  era * 146097 + (db yoe + doy)

/-- Month component recovered from a day-of-shifted-year. -/
def cfdM (doy : Nat) : Nat :=
  let mp := (5 * doy + 2) / 153
  if mp < 10 then mp + 3 else mp - 9

/-- Day-of-month component recovered from a day-of-shifted-year. -/
def cfdD (doy : Nat) : Nat :=
  let mp := (5 * doy + 2) / 153
  doy - (153 * mp + 2) / 5 + 1

/-- Year component: the civil year is one past the shifted year for the
January/February tail. -/
def cfdY (era yoe doy : Nat) : Nat :=
  if cfdM doy ≤ 2 then yoe + era * 400 + 1 else yoe + era * 400

/-- Civil date `(y, m, d)` of a day number; inverse of `days_from_civil`. -/
def civil_from_days (z : Nat) : Nat × Nat × Nat :=
  let doy := z % 146097 - db (yoeF (z % 146097))
  (cfdY (z / 146097) (yoeF (z % 146097)) doy, cfdM doy, cfdD doy)

/-- Python's `date.weekday()`: Monday = 0 .. Sunday = 6. -/
def pyWeekday (z : Nat) : Nat := (z + 2) % 7

/-- Python's `calendar` leap-year rule, as used by `datetime` validation. -/
def isLeap (y : Nat) : Bool := decide (y % 4 = 0 ∧ (y % 100 ≠ 0 ∨ y % 400 = 0))

/-- Month lengths as validated by the `datetime` constructor. -/
def daysInMonth (y m : Nat) : Nat :=
  if m = 2 then (if isLeap y then 29 else 28)
  else if m = 4 ∨ m = 6 ∨ m = 9 ∨ m = 11 then 30 else 31

/-- Python's `date.isocalendar()[1]`: the ISO week number is the index of
the week (Mon..Sun) containing the date, counted within the calendar year
of that week's Thursday. -/
def isoWeek (z : Nat) : Nat :=
  let th := z + 3 - pyWeekday z
  let y := (civil_from_days th).1
  (th - days_from_civil y 1 1) / 7 + 1

/-! ### Correctness of the calendar kernel

`yoeF` is monotone and agrees with the year indexed by `db` at every
year boundary of the 400-year cycle; this pins it between consecutive
`db` values everywhere, from which `days_from_civil` is shown to invert
`civil_from_days`. -/

theorem yoeF_mono : Monotone yoeF := by
  apply monotone_nat_of_le_succ
  intro d
  simp only [yoeF]
  omega

set_option maxRecDepth 2000 in
theorem yoeF_db : ∀ y < 400, yoeF (db y) = y := by decide

set_option maxRecDepth 2000 in
theorem yoeF_db_pred : ∀ y < 400, yoeF (db (y + 1) - 1) = y := by decide

theorem yoeF_last : yoeF 146096 = 399 := by decide

theorem db_succ (y : Nat) (h : y ≤ 398) : db (y + 1) = db y + 365 + leapBit y := by
  simp only [db, leapBit]
  split_ifs <;> omega

theorem yoeF_le_399 (doe : Nat) (h : doe ≤ 146096) : yoeF doe ≤ 146096 / 365 := by
  simp only [yoeF]; omega

/-- Bracketing: each day-of-era lies inside the shifted year `yoeF`
reports, and that year's day count respects its leap length. -/
theorem yoeF_bracket (doe : Nat) (h : doe ≤ 146096) :
    db (yoeF doe) ≤ doe ∧ doe < db (yoeF doe) + 365 + leapBit (yoeF doe) ∧
      yoeF doe ≤ 399 := by
  have h399 : yoeF doe ≤ 399 := by
    have := yoeF_mono (show doe ≤ 146096 from h)
    rw [yoeF_last] at this
    exact this
  refine ⟨?_, ?_, h399⟩
  · by_contra hlt
    push_neg at hlt
    rcases Nat.eq_zero_or_pos (yoeF doe) with h0 | hpos
    · rw [h0] at hlt; simp [db] at hlt
    · have hy : yoeF doe - 1 < 400 := by omega
      have hle : doe ≤ db (yoeF doe - 1 + 1) - 1 := by
        have : yoeF doe - 1 + 1 = yoeF doe := by omega
        rw [this]; omega
      have := yoeF_mono hle
      rw [yoeF_db_pred _ hy] at this
      omega
  · by_contra hge
    push_neg at hge
    rcases Nat.lt_or_ge (yoeF doe) 399 with hlt | h399'
    · have hstep : db (yoeF doe + 1) = db (yoeF doe) + 365 + leapBit (yoeF doe) :=
        db_succ _ (by omega)
      have hle : db (yoeF doe + 1) ≤ doe := by omega
      have := yoeF_mono hle
      rw [yoeF_db _ (by omega)] at this
      omega
    · have heq : yoeF doe = 399 := le_antisymm h399 h399'
      rw [heq] at hge
      have hdb : db 399 = 145731 := by decide
      have hlb : leapBit 399 = 1 := by decide
      omega

theorem leapBit_le (y : Nat) : leapBit y ≤ 1 := by
  simp only [leapBit]; split_ifs <;> omega

/-- Reassembling a civil date recovered from era/year-of-era/day-of-year
data lands back on the original day count. -/
theorem days_from_civil_reassemble (era yoe doy : Nat) (hyoe : yoe ≤ 399)
    (hdoy : doy ≤ 365) :
    days_from_civil (cfdY era yoe doy) (cfdM doy) (cfdD doy) =
      era * 146097 + (db yoe + doy) := by
  simp only [days_from_civil, cfdY, cfdM, cfdD, db]
  split_ifs <;> omega

/-- `days_from_civil` inverts `civil_from_days` on every day number. -/
theorem days_from_civil_inv (z : Nat) :
    days_from_civil (civil_from_days z).1 (civil_from_days z).2.1
      (civil_from_days z).2.2 = z := by
  obtain ⟨h1, h2, h3⟩ := yoeF_bracket (z % 146097) (by omega)
  have hlb := leapBit_le (yoeF (z % 146097))
  simp only [civil_from_days]
  rw [days_from_civil_reassemble _ _ _ h3 (by omega)]
  omega

/-- Componentwise validity: within the year length reported by `leapBit`,
the recovered month is 1..12 and the day fits its month. -/
theorem cfd_valid (era yoe doy : Nat) (hyoe : yoe ≤ 399)
    (hdoy : doy < 365 + leapBit yoe) :
    1 ≤ cfdM doy ∧ cfdM doy ≤ 12 ∧ 1 ≤ cfdD doy ∧
      cfdD doy ≤ daysInMonth (cfdY era yoe doy) (cfdM doy) := by
  simp only [leapBit] at hdoy
  simp only [cfdY, cfdM, cfdD, daysInMonth, isLeap, decide_eq_true_eq]
  split_ifs at * <;> omega

/-- The civil date reported for any day number is structurally valid:
month in 1..12 and day in 1..month length (Feb 29 only in leap years). -/
theorem civil_from_days_valid (z : Nat) :
    1 ≤ (civil_from_days z).2.1 ∧ (civil_from_days z).2.1 ≤ 12 ∧
      1 ≤ (civil_from_days z).2.2 ∧
      (civil_from_days z).2.2 ≤ daysInMonth (civil_from_days z).1 (civil_from_days z).2.1 := by
  obtain ⟨h1, h2, h3⟩ := yoeF_bracket (z % 146097) (by omega)
  simp only [civil_from_days]
  exact cfd_valid (z / 146097) _ _ h3 (by omega)

/-! ### Locating a day number inside its civil year -/

/-- Closed form of the day number of January 1st. -/
theorem jan1_eq (y : Nat) :
    days_from_civil y 1 1 = (y - 1) / 400 * 146097 + (db ((y - 1) % 400) + 306) := by
  simp only [days_from_civil]
  norm_num

theorem jan1_mono (a b : Nat) (h : a ≤ b) :
    days_from_civil a 1 1 ≤ days_from_civil b 1 1 := by
  rw [jan1_eq, jan1_eq]
  have hq : (a - 1) / 400 ≤ (b - 1) / 400 := Nat.div_le_div_right (by omega)
  rcases eq_or_lt_of_le hq with heq | hlt
  · have hr : (a - 1) % 400 ≤ (b - 1) % 400 := by omega
    rcases eq_or_lt_of_le hr with hre | hrl
    · rw [heq, hre]
    · simp only [db]
      omega
  · have hbound : db ((a - 1) % 400) ≤ 145731 := by
      have : (a - 1) % 400 ≤ 399 := by omega
      simp only [db]; omega
    omega

theorem jan1_le_general (era yoe doy : Nat) (hyoe : yoe ≤ 399) (hdoy : doy ≤ 365)
    (hne : ¬(era = 0 ∧ yoe = 0 ∧ doy < 306)) :
    days_from_civil (cfdY era yoe doy) 1 1 ≤ era * 146097 + (db yoe + doy) := by
  rw [jan1_eq]
  simp only [cfdY, cfdM]
  split_ifs with hmp hm hm
  · omega
  · -- March..December: civil year is yoe + era*400
    have hdoy305 : doy ≤ 305 := by omega
    rcases Nat.eq_zero_or_pos yoe with h0 | hpos
    · subst h0
      have hera : 1 ≤ era := by omega
      have he : (0 + era * 400 - 1) / 400 = era - 1 := by omega
      have hr : (0 + era * 400 - 1) % 400 = 399 := by omega
      rw [he, hr]
      simp only [db]
      omega
    · have he : (yoe + era * 400 - 1) / 400 = era := by omega
      have hr : (yoe + era * 400 - 1) % 400 = yoe - 1 := by omega
      rw [he, hr]
      simp only [db]
      omega
  · -- January/February: civil year is yoe + era*400 + 1
    have he : (yoe + era * 400 + 1 - 1) / 400 = era := by omega
    have hr : (yoe + era * 400 + 1 - 1) % 400 = yoe := by omega
    rw [he, hr]
    have hdoy306 : 306 ≤ doy := by omega
    omega
  · omega

theorem lt_jan1_succ_general (era yoe doy : Nat) (hyoe : yoe ≤ 399) (hdoy : doy ≤ 365) :
    era * 146097 + (db yoe + doy) < days_from_civil (cfdY era yoe doy + 1) 1 1 := by
  rw [jan1_eq]
  simp only [cfdY, cfdM]
  split_ifs with hmp hm hm
  · omega
  · -- March..December: next civil year is yoe + era*400 + 1
    have hdoy305 : doy ≤ 305 := by omega
    have he : (yoe + era * 400 + 1 - 1) / 400 = era := by omega
    have hr : (yoe + era * 400 + 1 - 1) % 400 = yoe := by omega
    rw [he, hr]
    omega
  · -- January/February: next civil year is yoe + era*400 + 2
    rcases Nat.lt_or_ge yoe 399 with hlt | h399
    · have he : (yoe + era * 400 + 1 + 1 - 1) / 400 = era := by omega
      have hr : (yoe + era * 400 + 1 + 1 - 1) % 400 = yoe + 1 := by omega
      rw [he, hr]
      simp only [db]
      omega
    · have h399' : yoe = 399 := by omega
      subst h399'
      have he : (399 + era * 400 + 1 + 1 - 1) / 400 = era + 1 := by omega
      have hr : (399 + era * 400 + 1 + 1 - 1) % 400 = 0 := by omega
      rw [he, hr]
      simp only [db]
      omega
  · omega

theorem jan1_le (z : Nat) (hz : 306 ≤ z) :
    days_from_civil (civil_from_days z).1 1 1 ≤ z := by
  obtain ⟨h1, h2, h3⟩ := yoeF_bracket (z % 146097) (by omega)
  have hlb := leapBit_le (yoeF (z % 146097))
  simp only [civil_from_days]
  have := jan1_le_general (z / 146097) (yoeF (z % 146097))
    (z % 146097 - db (yoeF (z % 146097))) h3 (by omega) ?_
  · omega
  · rintro ⟨he0, hy0, hd0⟩
    rw [hy0] at h1 hd0
    simp only [db] at h1 hd0
    omega

theorem lt_jan1_succ (z : Nat) :
    z < days_from_civil ((civil_from_days z).1 + 1) 1 1 := by
  obtain ⟨h1, h2, h3⟩ := yoeF_bracket (z % 146097) (by omega)
  have hlb := leapBit_le (yoeF (z % 146097))
  simp only [civil_from_days]
  have := lt_jan1_succ_general (z / 146097) (yoeF (z % 146097))
    (z % 146097 - db (yoeF (z % 146097))) h3 (by omega)
  omega

/-- Transfer of day-number bounds to the civil year: any day number in
`[days_from_civil 1000 1 1, days_from_civil 10000 1 1)` belongs to a
civil year with exactly four decimal digits. -/
theorem civil_year_bounds (z : Nat) (hlo : days_from_civil 1000 1 1 ≤ z)
    (hhi : z < days_from_civil 10000 1 1) :
    1000 ≤ (civil_from_days z).1 ∧ (civil_from_days z).1 ≤ 9999 := by
  have hz : 306 ≤ z := by
    have : days_from_civil 1000 1 1 = 365183 := by decide
    omega
  constructor
  · by_contra hy
    push_neg at hy
    have h1 : (civil_from_days z).1 + 1 ≤ 1000 := by omega
    have := jan1_mono _ _ h1
    have := lt_jan1_succ z
    omega
  · by_contra hy
    push_neg at hy
    have h1 : (10000 : Nat) ≤ (civil_from_days z).1 := by omega
    have := jan1_mono _ _ h1
    have := jan1_le z hz
    omega

/-! ## Decimal digits: printing (strftime) and scanning (strptime) -/

def digitChar (n : Nat) : Char := Char.ofNat (48 + n)

def digitVal (c : Char) : Nat := c.toNat - 48

def toDecimalAux : Nat → Nat → List Char
  | 0, n => [digitChar n]
  | fuel + 1, n =>
    if n < 10 then [digitChar n] else toDecimalAux fuel (n / 10) ++ [digitChar (n % 10)]

/-- Decimal representation, most significant digit first (as printed by
Python's `%` formatting and `strftime("%Y")`, which does not zero-pad).
Structured with fuel (`n` itself suffices) so that the kernel can
evaluate it; `toDecimal_eq` is the natural recurrence. -/
def toDecimal (n : Nat) : List Char := toDecimalAux n n

theorem toDecimalAux_congr : ∀ f1 f2 n : Nat, n ≤ f1 → n ≤ f2 →
    toDecimalAux f1 n = toDecimalAux f2 n := by
  intro f1
  induction f1 with
  | zero =>
    intro f2 n h1 h2
    have : n = 0 := by omega
    subst this
    cases f2 with
    | zero => rfl
    | succ f => simp [toDecimalAux]
  | succ f ih =>
    intro f2 n h1 h2
    cases f2 with
    | zero =>
      have : n = 0 := by omega
      subst this
      simp [toDecimalAux]
    | succ g =>
      simp only [toDecimalAux]
      split_ifs with h
      · rfl
      · rw [ih g (n / 10) (by omega) (by omega)]

theorem toDecimal_eq (n : Nat) :
    toDecimal n = if n < 10 then [digitChar n] else toDecimal (n / 10) ++ [digitChar (n % 10)] := by
  simp only [toDecimal]
  cases n with
  | zero => simp [toDecimalAux]
  | succ m =>
    show toDecimalAux (m + 1) (m + 1) = _
    simp only [toDecimalAux]
    split_ifs with h
    · rfl
    · rw [toDecimalAux_congr m ((m + 1) / 10) ((m + 1) / 10) (by omega) le_rfl]

/-- Two-digit zero-padded field, as printed by `strftime("%d")`/`"%m"`. -/
def pad2 (n : Nat) : List Char := if n < 10 then ['0', digitChar n] else toDecimal n

/-- Numeric value of a digit string (most significant first). -/
def digitsVal (l : List Char) : Nat := l.foldl (fun a c => 10 * a + digitVal c) 0

theorem digitChar_isDigit : ∀ n < 10, (digitChar n).isDigit = true := by decide

theorem digitVal_digitChar : ∀ n < 10, digitVal (digitChar n) = n := by decide

theorem toDecimal_digits (n : Nat) : ∀ c ∈ toDecimal n, c.isDigit = true := by
  induction n using Nat.strong_induction_on with
  | _ n ih =>
    rw [toDecimal_eq]
    split_ifs with h
    · intro c hc
      simp only [List.mem_singleton] at hc
      subst hc
      exact digitChar_isDigit n h
    · intro c hc
      rw [List.mem_append] at hc
      rcases hc with hc | hc
      · exact ih (n / 10) (by omega) c hc
      · simp only [List.mem_singleton] at hc
        subst hc
        exact digitChar_isDigit _ (by omega)

theorem digitsVal_append_singleton (l : List Char) (c : Char) :
    digitsVal (l ++ [c]) = 10 * digitsVal l + digitVal c := by
  simp [digitsVal, List.foldl_append]

theorem toDecimal_val (n : Nat) : digitsVal (toDecimal n) = n := by
  induction n using Nat.strong_induction_on with
  | _ n ih =>
    rw [toDecimal_eq]
    split_ifs with h
    · simp [digitsVal, digitVal_digitChar n h]
    · rw [digitsVal_append_singleton, ih (n / 10) (by omega),
        digitVal_digitChar _ (by omega)]
      omega

theorem toDecimal_ne_nil (n : Nat) : toDecimal n ≠ [] := by
  rw [toDecimal_eq]
  split_ifs <;> simp

theorem toDecimal_length_step (n : Nat) (h : 10 ≤ n) :
    (toDecimal n).length = (toDecimal (n / 10)).length + 1 := by
  conv_lhs => rw [toDecimal_eq]
  rw [if_neg (by omega)]
  simp

theorem toDecimal_length_one (n : Nat) (h : n < 10) : (toDecimal n).length = 1 := by
  rw [toDecimal_eq, if_pos h]
  rfl

theorem toDecimal_length_four (n : Nat) (h1 : 1000 ≤ n) (h2 : n ≤ 9999) :
    (toDecimal n).length = 4 := by
  rw [toDecimal_length_step n (by omega), toDecimal_length_step (n / 10) (by omega),
    toDecimal_length_step (n / 10 / 10) (by omega),
    toDecimal_length_one (n / 10 / 10 / 10) (by omega)]

theorem toDecimal_length_le_two (n : Nat) (h : n ≤ 99) : (toDecimal n).length ≤ 2 := by
  rcases Nat.lt_or_ge n 10 with h10 | h10
  · rw [toDecimal_length_one n h10]; omega
  · rw [toDecimal_length_step n h10, toDecimal_length_one (n / 10) (by omega)]

theorem toDecimal_length_ge_three (n : Nat) (h : 100 ≤ n) : 3 ≤ (toDecimal n).length := by
  rw [toDecimal_length_step n (by omega), toDecimal_length_step (n / 10) (by omega)]
  have := toDecimal_ne_nil (n / 10 / 10)
  have : (toDecimal (n / 10 / 10)).length ≠ 0 := by
    simpa [List.length_eq_zero] using this
  omega

theorem toDecimal_length_lt (n : Nat) (h : n ≤ 9999) : (toDecimal n).length ≤ 4 := by
  rcases Nat.lt_or_ge n 1000 with h3 | h3
  · rcases Nat.lt_or_ge n 100 with h2 | h2
    · have := toDecimal_length_le_two n (by omega); omega
    · rw [toDecimal_length_step n (by omega)]
      have := toDecimal_length_le_two (n / 10) (by omega)
      omega
  · rw [toDecimal_length_four n h3 h]

theorem pad2_digits (n : Nat) : ∀ c ∈ pad2 n, c.isDigit = true := by
  rw [pad2]
  split_ifs with h
  · intro c hc
    simp only [List.mem_cons, List.mem_singleton, List.not_mem_nil, or_false] at hc
    rcases hc with rfl | rfl
    · rfl
    · exact digitChar_isDigit n h
  · exact toDecimal_digits n

theorem pad2_val (n : Nat) : digitsVal (pad2 n) = n := by
  rw [pad2]
  split_ifs with h
  · simp only [digitsVal, List.foldl_cons, List.foldl_nil, digitVal_digitChar n h]
    have h0 : digitVal '0' = 0 := rfl
    rw [h0]
    omega
  · exact toDecimal_val n

theorem pad2_length_two (n : Nat) (h : n ≤ 99) : (pad2 n).length = 2 := by
  rw [pad2]
  split_ifs with h10
  · rfl
  · rw [toDecimal_length_step n (by omega), toDecimal_length_one (n / 10) (by omega)]

theorem pad2_length_le_two_iff (n : Nat) : (pad2 n).length ≤ 2 ↔ n ≤ 99 := by
  constructor
  · intro h
    by_contra hn
    push_neg at hn
    rw [pad2, if_neg (by omega)] at h
    have := toDecimal_length_ge_three n (by omega)
    omega
  · intro h
    rw [pad2_length_two n h]

/-! ## Scanning helpers for the fixed strptime formats -/

theorem takeWhile_all_append (p : Char → Bool) (l1 l2 : List Char)
    (h1 : ∀ c ∈ l1, p c = true) (h2 : ∀ c, l2.head? = some c → p c = false) :
    (l1 ++ l2).takeWhile p = l1 ∧ (l1 ++ l2).dropWhile p = l2 := by
  induction l1 with
  | nil =>
    simp only [List.nil_append]
    cases l2 with
    | nil => simp
    | cons c t =>
      have hc := h2 c rfl
      simp [List.takeWhile_cons, List.dropWhile_cons, hc]
  | cons a l ih =>
    have ha : p a = true := h1 a (List.mem_cons_self a l)
    have ih2 := ih (fun c hc => h1 c (List.mem_cons_of_mem a hc))
    simp [List.takeWhile_cons, List.dropWhile_cons, ha, ih2.1, ih2.2]

/-- Python's `\s` (ASCII part), the class matched by a literal space in a
`strptime` format. -/
def isPyWS (c : Char) : Bool :=
  c == ' ' || c == '\t' || c == '\n' || c == '\r' || c == '\x0b' || c == '\x0c'

/-- A parsed `%d.%m.%Y %H:%M` timestamp. -/
structure PDateTime where
  year : Nat
  month : Nat
  day : Nat
  hour : Nat
  minute : Nat
deriving DecidableEq, Repr

/-- `strptime` fragment `%d.%m.%Y`: a 1-2 digit day, literal dot, 1-2
digit month, dot, exactly-4-digit year — mirroring the regexes Python's
`_strptime` builds (`3[01]|[12]\d|0[1-9]|[1-9]` etc., which accept
exactly the 1-2 digit tokens with the right value range) — followed by
the range validation the `datetime` constructor performs.  Returns the
parsed date and the unconsumed remainder. -/
def parseDMY (l : List Char) : Option ((Nat × Nat × Nat) × List Char) :=
  let dTok := l.takeWhile Char.isDigit
  let r1 := l.dropWhile Char.isDigit
  if dTok.length = 0 ∨ 2 < dTok.length then none else
  let d := digitsVal dTok
  if d < 1 ∨ 31 < d then none else
  match r1 with
  | c1 :: r2 =>
    if c1 ≠ '.' then none else
    let mTok := r2.takeWhile Char.isDigit
    let r3 := r2.dropWhile Char.isDigit
    if mTok.length = 0 ∨ 2 < mTok.length then none else
    let m := digitsVal mTok
    if m < 1 ∨ 12 < m then none else
    match r3 with
    | c2 :: r4 =>
      if c2 ≠ '.' then none else
      let yTok := r4.takeWhile Char.isDigit
      let r5 := r4.dropWhile Char.isDigit
      if yTok.length ≠ 4 then none else
      let y := digitsVal yTok
      if y < 1 ∨ daysInMonth y m < d then none else
      some ((y, m, d), r5)
    | [] => none
  | [] => none

/-- `strptime` fragment `" %H:%M"` at end of format: one-or-more
whitespace (a literal space in the format matches `\s+`), 1-2 digit hour
0..23, literal colon, 1-2 digit minute 0..59, end of input. -/
def parseTimeTail (l : List Char) : Option (Nat × Nat) :=
  let ws := l.takeWhile isPyWS
  let r0 := l.dropWhile isPyWS
  if ws.length = 0 then none else
  let hTok := r0.takeWhile Char.isDigit
  let r1 := r0.dropWhile Char.isDigit
  if hTok.length = 0 ∨ 2 < hTok.length then none else
  let h := digitsVal hTok
  if 23 < h then none else
  match r1 with
  | c1 :: r2 =>
    if c1 ≠ ':' then none else
    let mTok := r2.takeWhile Char.isDigit
    let r3 := r2.dropWhile Char.isDigit
    if mTok.length = 0 ∨ 2 < mTok.length then none else
    let mi := digitsVal mTok
    if 59 < mi then none else
    if r3.isEmpty then some (h, mi) else none
  | [] => none

/-- `datetime.strptime(s, "%d.%m.%Y %H:%M")`, as `Option`: `none` models
the `ValueError` path. -/
def parseDateTime (s : String) : Option PDateTime :=
  (parseDMY s.data).bind fun pr =>
    (parseTimeTail pr.2).map fun hm => ⟨pr.1.1, pr.1.2.1, pr.1.2.2, hm.1, hm.2⟩

/-- `datetime.strptime(s, "%d.%m.%Y")`, as `Option` (the format must
consume the whole string). -/
def parseDateOnly (s : String) : Option (Nat × Nat × Nat) :=
  (parseDMY s.data).bind fun pr => if pr.2.isEmpty then some pr.1 else none

/-- The character list printed by `current.strftime("%d.%m.%Y")`:
zero-padded day and month, unpadded year (glibc `%Y`). -/
def fmtChars (y m d : Nat) : List Char :=
  pad2 d ++ ('.' :: pad2 m) ++ ('.' :: toDecimal y)

/-- `current.strftime("%d.%m.%Y")` for a day number. -/
def fmtDate (z : Nat) : String :=
  String.mk (fmtChars (civil_from_days z).1 (civil_from_days z).2.1 (civil_from_days z).2.2)

/-! ## Parsing a formatted date -/

theorem toDecimal_length_le_three (n : Nat) (h : n ≤ 999) : (toDecimal n).length ≤ 3 := by
  rcases Nat.lt_or_ge n 100 with h2 | h2
  · have := toDecimal_length_le_two n (by omega)
    omega
  · rw [toDecimal_length_step n (by omega)]
    have := toDecimal_length_le_two (n / 10) (by omega)
    omega

theorem toDecimal_length_ge_five (n : Nat) (h : 10000 ≤ n) : 5 ≤ (toDecimal n).length := by
  rw [toDecimal_length_step n (by omega), toDecimal_length_step (n / 10) (by omega)]
  have := toDecimal_length_ge_three (n / 10 / 10) (by omega)
  omega

theorem toDecimal_four_iff (n : Nat) : (toDecimal n).length = 4 ↔ 1000 ≤ n ∧ n ≤ 9999 := by
  constructor
  · intro h
    constructor
    · by_contra hn
      push_neg at hn
      have := toDecimal_length_le_three n (by omega)
      omega
    · by_contra hn
      push_neg at hn
      have := toDecimal_length_ge_five n (by omega)
      omega
  · intro ⟨h1, h2⟩
    exact toDecimal_length_four n h1 h2

theorem pad2_bad_iff (n : Nat) :
    ((pad2 n).length = 0 ∨ 2 < (pad2 n).length) ↔ 100 ≤ n := by
  have h2 := pad2_length_le_two_iff n
  constructor
  · intro h
    rcases h with h | h
    · rcases Nat.lt_or_ge n 100 with hn | hn
      · rw [pad2_length_two n (by omega)] at h
        omega
      · exact hn
    · by_contra hn
      push_neg at hn
      rw [pad2_length_two n (by omega)] at h
      omega
  · intro h
    right
    by_contra hc
    push_neg at hc
    have := h2.mp (by omega)
    omega

theorem daysInMonth_bounds (y m : Nat) : 28 ≤ daysInMonth y m ∧ daysInMonth y m ≤ 31 := by
  simp only [daysInMonth]
  split_ifs <;> omega

/-- Scanning `dd.mm.yyyy` text produced by the formatter recovers exactly
the printed numbers, provided (and only provided) they survive the token
shapes and the `datetime` range checks. -/
theorem parseDMY_fmt_eq (y m d : Nat) (rest : List Char)
    (hrest : ∀ c, rest.head? = some c → c.isDigit = false) :
    parseDMY (fmtChars y m d ++ rest) =
      if 1 ≤ d ∧ d ≤ 31 ∧ 1 ≤ m ∧ m ≤ 12 ∧ 1000 ≤ y ∧ y ≤ 9999 ∧ d ≤ daysInMonth y m
      then some ((y, m, d), rest) else none := by
  have hdot : ∀ (X : List Char) (c : Char), ('.' :: X).head? = some c → c.isDigit = false := by
    intro X c hc
    simp only [List.head?_cons, Option.some.injEq] at hc
    subst hc
    rfl
  obtain ⟨ht1, hd1⟩ := takeWhile_all_append Char.isDigit (pad2 d)
    ('.' :: (pad2 m ++ ('.' :: (toDecimal y ++ rest)))) (pad2_digits d) (hdot _)
  obtain ⟨ht2, hd2⟩ := takeWhile_all_append Char.isDigit (pad2 m)
    ('.' :: (toDecimal y ++ rest)) (pad2_digits m) (hdot _)
  obtain ⟨ht3, hd3⟩ := takeWhile_all_append Char.isDigit (toDecimal y) rest
    (toDecimal_digits y) hrest
  have hshape : fmtChars y m d ++ rest =
      pad2 d ++ ('.' :: (pad2 m ++ ('.' :: (toDecimal y ++ rest)))) := by
    simp [fmtChars]
  rw [hshape]
  simp only [parseDMY]
  rw [ht1, hd1]
  simp only [ne_eq, not_true_eq_false, if_false, ite_false, reduceCtorEq]
  rw [ht2, hd2]
  simp only [ne_eq, not_true_eq_false, if_false, ite_false, reduceCtorEq]
  rw [ht3, hd3]
  rw [pad2_val d, pad2_val m, toDecimal_val y]
  simp only [ne_eq, toDecimal_four_iff, pad2_bad_iff]
  have hdim := daysInMonth_bounds y m
  split_ifs <;> first | rfl | omega

theorem data_append_eq (a b : String) : (a ++ b).data = a.data ++ b.data := rfl

/-- The character shape of the string `generate_ics` hands to `strptime`
in the recurring branch: formatted date, a space, then the record's time
field. -/
theorem fmt_concat_data (z : Nat) (ts : String) :
    (fmtDate z ++ " " ++ ts).data =
      fmtChars (civil_from_days z).1 (civil_from_days z).2.1 (civil_from_days z).2.2 ++
        (' ' :: ts.data) := by
  rw [data_append_eq, data_append_eq]
  simp [fmtDate]

/-- Parsing the string the recurring branch builds for day number `z`
succeeds exactly on the time tail, and returns `z`'s own civil date,
whenever `z` lies in the four-digit-year range. -/
theorem parseDateTime_fmt (z : Nat) (ts : String)
    (h1000 : days_from_civil 1000 1 1 ≤ z) (h10000 : z < days_from_civil 10000 1 1) :
    parseDateTime (fmtDate z ++ " " ++ ts) =
      (parseTimeTail (' ' :: ts.data)).map fun hm =>
        ⟨(civil_from_days z).1, (civil_from_days z).2.1,
          (civil_from_days z).2.2, hm.1, hm.2⟩ := by
  obtain ⟨hm1, hm2, hd1, hd2⟩ := civil_from_days_valid z
  obtain ⟨hy1, hy2⟩ := civil_year_bounds z h1000 h10000
  have hws : ∀ c : Char, (' ' :: ts.data).head? = some c → c.isDigit = false := by
    intro c hc
    simp only [List.head?_cons, Option.some.injEq] at hc
    subst hc
    rfl
  have hdim := daysInMonth_bounds (civil_from_days z).1 (civil_from_days z).2.1
  simp only [parseDateTime, fmt_concat_data]
  rw [parseDMY_fmt_eq _ _ _ _ hws, if_pos (by omega), Option.some_bind]

/-- Conversely, whenever that parse succeeds at all, it can only have
produced `z`'s own civil date together with a successful time-tail
parse — no range hypotheses needed. -/
theorem parseDateTime_fmt_inv (z : Nat) (ts : String) (v : PDateTime)
    (h : parseDateTime (fmtDate z ++ " " ++ ts) = some v) :
    v.year = (civil_from_days z).1 ∧ v.month = (civil_from_days z).2.1 ∧
      v.day = (civil_from_days z).2.2 ∧
      parseTimeTail (' ' :: ts.data) = some (v.hour, v.minute) := by
  have hws : ∀ c : Char, (' ' :: ts.data).head? = some c → c.isDigit = false := by
    intro c hc
    simp only [List.head?_cons, Option.some.injEq] at hc
    subst hc
    rfl
  simp only [parseDateTime, fmt_concat_data] at h
  rw [parseDMY_fmt_eq _ _ _ _ hws] at h
  split_ifs at h with hc
  · rw [Option.some_bind] at h
    rcases hpt : parseTimeTail (' ' :: ts.data) with _ | hm
    · rw [hpt] at h
      simp at h
    · rw [hpt] at h
      simp only [Option.map_some', Option.some.injEq] at h
      subst h
      exact ⟨rfl, rfl, rfl, rfl⟩
  · simp at h

/-! ## Python string helpers -/

/-- `str.strip()` (ASCII whitespace). -/
def pyStrip (s : String) : String :=
  String.mk (((s.data.dropWhile isPyWS).reverse.dropWhile isPyWS).reverse)

/-- `str.split('.')` on the underlying characters. -/
def splitDots : List Char → List (List Char)
  | [] => [[]]
  | c :: rest =>
    if c = '.' then [] :: splitDots rest
    else
      match splitDots rest with
      | h :: t => (c :: h) :: t
      | [] => [[c]]

/-- How a possibly-`None` string renders inside an f-string. -/
def optStr : Option String → String
  | none => "None"
  | some s => s

/-- `a.startswith(b)`. -/
def pyStartswith (s pre : String) : Bool := pre.data.isPrefixOf s.data

/-- `s.replace(old, new)` for one-character arguments (the only form the
program uses: `.replace('.', ':')`). -/
def pyReplaceChar (s : String) (old new : Char) : String :=
  String.mk (s.data.map fun ch => if ch = old then new else ch)

/-- Truthiness of `e['date']` (possibly-`None` string). -/
def dateTruthy : Option String → Bool
  | none => false
  | some s => !(s == "")

/-! ## The session-record model (`vorlesungen2.py`) -/

/-- One parsed session record: the dict built by `process_event_block`
for each line matching the schedule pattern. -/
structure PEvent where
  id : String
  title : String
  full_label : String
  type : String
  date : Option String
  weekday : String
  start_time : String
  end_time : String
  location : String
deriving DecidableEq, Repr

/-- `clean_title_logic` (lines 13-27): identifiers with exactly one dot
("X.Y" modules) are truncated at the first hyphen; anything else keeps
the full (stripped) title. -/
def clean_title_logic (course_id raw_title : String) : String :=
  let dots := (course_id.data.filter (fun c => c == '.')).length
  if dots = 1 ∧ raw_title.data.contains '-' then
    pyStrip (String.mk (raw_title.data.takeWhile (fun c => c ≠ '-')))
  else pyStrip raw_title

/-- Python's `\w` over its ASCII part, plus the literal dot of the
location pattern's token class `[\w\.]`. -/
def isWordOrDot (c : Char) : Bool := c.isAlphanum || c == '_' || c == '.'

def raumChars : List Char := ['R', 'a', 'u', 'm']

def aulaChars : List Char := ['A', 'u', 'l', 'a']

def hoersaalChars : List Char := ['H', 'ö', 'r', 's', 'a', 'a', 'l']

/-- Attempt the pattern `kw\s+[\w\.]+` at the start of `l`; on success
return the matched text (`group(0)`).  The greedy runs need no
backtracking because the whitespace and token classes are disjoint. -/
def matchKeywordAt (kw l : List Char) : Option (List Char) :=
  if kw.isPrefixOf l then
    let rest := l.drop kw.length
    let ws := rest.takeWhile isPyWS
    let tok := (rest.dropWhile isPyWS).takeWhile isWordOrDot
    if ws.isEmpty || tok.isEmpty then none else some (kw ++ ws ++ tok)
  else none

/-- Try the three alternatives of `(Raum|Aula|Hörsaal)\s+[\w\.]+` at one
position, in the regex's left-to-right order. -/
def matchLocAt (l : List Char) : Option (List Char) :=
  match matchKeywordAt raumChars l with
  | some m => some m
  | none =>
    match matchKeywordAt aulaChars l with
    | some m => some m
    | none => matchKeywordAt hoersaalChars l

def findLocAux : List Char → Option (List Char)
  | [] => none
  | c :: rest =>
    if (matchLocAt (c :: rest)).isSome then matchLocAt (c :: rest) else findLocAux rest

/-- `re.search(r'(Raum|Aula|Hörsaal)\s+([\w\.]+)', s)`, returning
`group(0)` of the leftmost match. -/
def findLoc (s : String) : Option String := (findLocAux s.data).map String.mk

/-- Block-level default location (`process_event_block` lines 63-65):
first match over the joined block text, else the sentinel `"TBA"`. -/
def blockDefaultLocation (block_lines : List String) : String :=
  match findLoc (String.intercalate "\n" block_lines) with
  | some m => m
  | none => "TBA"

/-- Per-line location (lines 84-85): a line-local match overrides the
block default. -/
def lineLocation (line : String) (default_location : String) : String :=
  match findLoc line with
  | some m => m
  | none => default_location

/-- Year normalization (lines 78-82): a date token whose third
dot-separated part has two characters gets `"20"` prefixed to it.  (The
schedule regex guarantees the token has three such parts, so the
`parts[2]` subscript never faults; `getD` mirrors that.) -/
def normalizeDate (date_str : String) : String :=
  let parts := splitDots date_str.data
  if (parts.getD 2 []).length = 2 then
    String.mk (parts.getD 0 [] ++ '.' :: parts.getD 1 [] ++ '.' :: '2' :: '0' :: parts.getD 2 [])
  else date_str

/-- The record dict built for one matched schedule line
(`process_event_block` lines 76-98). -/
def mkEvent (course_id final_title weekday : String) (date_str : Option String)
    (start_time end_time location : String) : PEvent :=
  let nd := date_str.map normalizeDate
  { id := course_id
    title := final_title
    full_label := course_id ++ " " ++ final_title
    type := if nd.isSome then "single" else "recurring"
    date := nd
    weekday := weekday
    start_time := pyReplaceChar start_time '.' ':'
    end_time := pyReplaceChar end_time '.' ':'
    location := location }

/-! ## Holiday inference (`detect_holiday_weeks`) -/

def isoWeekOfDate (dmy : Nat × Nat × Nat) : Nat :=
  isoWeek (days_from_civil dmy.1 dmy.2.1 dmy.2.2)

/-- ISO week numbers of the single events whose dates parse
(lines 103-113; `ValueError` is swallowed per event). -/
def activeWeeks (events : List PEvent) : List Nat :=
  events.filterMap fun ev =>
    if ev.type == "single" && dateTruthy ev.date then
      (parseDateOnly (optStr ev.date)).map isoWeekOfDate
    else none

/-- The `single_events_found` flag: set as soon as a single event with a
truthy date is seen, before its date is parsed. -/
def singleEventsFound (events : List PEvent) : Bool :=
  events.any fun ev => ev.type == "single" && dateTruthy ev.date

def strideDaysAux : Nat → Nat → Nat → List Nat
  | 0, _, _ => []
  | fuel + 1, s, e => if s ≤ e then s :: strideDaysAux fuel (s + 7) e else []

/-- The 7-day stride `while current <= semester_end` walk, structured
with fuel (`e + 1 - s` suffices) so the kernel can evaluate it;
`strideDays_eq` is the loop equation. -/
def strideDays (s e : Nat) : List Nat := strideDaysAux (e + 1 - s) s e

theorem strideDaysAux_congr : ∀ f1 f2 s e : Nat, e + 1 - s ≤ f1 → e + 1 - s ≤ f2 →
    strideDaysAux f1 s e = strideDaysAux f2 s e := by
  intro f1
  induction f1 with
  | zero =>
    intro f2 s e h1 h2
    cases f2 with
    | zero => rfl
    | succ g => simp only [strideDaysAux]; rw [if_neg (by omega)]
  | succ f ih =>
    intro f2 s e h1 h2
    cases f2 with
    | zero => simp only [strideDaysAux]; rw [if_neg (by omega)]
    | succ g =>
      simp only [strideDaysAux]
      split_ifs with h
      · rw [ih g (s + 7) e (by omega) (by omega)]
      · rfl

theorem strideDays_eq (s e : Nat) :
    strideDays s e = if s ≤ e then s :: strideDays (s + 7) e else [] := by
  simp only [strideDays]
  split_ifs with h
  · have h1 : e + 1 - s = (e + 1 - (s + 7)) + (e + 1 - s - (e + 1 - (s + 7))) := by omega
    cases hf : e + 1 - s with
    | zero => omega
    | succ f =>
      simp only [strideDaysAux]
      rw [if_pos h, strideDaysAux_congr f (e + 1 - (s + 7)) (s + 7) e (by omega) le_rfl]
  · cases hf : e + 1 - s with
    | zero => rfl
    | succ f => simp only [strideDaysAux]; rw [if_neg h]

/-- Ascending insertion that drops duplicates; folding it over a list
yields exactly Python's `sorted(list(set(l)))`. -/
def insertNoDup (x : Nat) : List Nat → List Nat
  | [] => [x]
  | y :: t =>
    if x < y then x :: y :: t
    else if x = y then y :: t
    else y :: insertNoDup x t

/-- Python's `sorted(list(set(l)))`: the strictly ascending enumeration
of the distinct members of `l`. -/
def sortedDedup (l : List Nat) : List Nat := l.foldr insertNoDup []

/-- `detect_holiday_weeks` (lines 101-126): stride week numbers missing
from the active set, deduplicated and sorted — or `[]` when no single
event with a date is present. -/
def detect_holiday_weeks (events : List PEvent) (semester_start semester_end : Nat) :
    List Nat :=
  if singleEventsFound events then
    sortedDedup (((strideDays semester_start semester_end).map isoWeek).filter
      (fun w => !((activeWeeks events).contains w)))
  else []

/-! ## Occurrence expansion (`generate_ics`) -/

/-- A calendar event as added to the `ics.Calendar`: composed label,
location, and begin/end timestamps (day number plus wall-clock time in
the fixed `Europe/Berlin` zone). -/
structure Occurrence where
  name : String
  location : String
  beginDay : Nat
  beginHour : Nat
  beginMinute : Nat
  endDay : Nat
  endHour : Nat
  endMinute : Nat
deriving DecidableEq, Repr

/-- The `weekday_map` dict; a missing key raises `KeyError`, modelled by
`none`. -/
def weekday_map (w : String) : Option (Fin 7) :=
  if w = "Mo" then some 0
  else if w = "Di" then some 1
  else if w = "Mi" then some 2
  else if w = "Do" then some 3
  else if w = "Fr" then some 4
  else if w = "Sa" then some 5
  else if w = "So" then some 6
  else none

def mkOccurrence (ev : PEvent) (b e : PDateTime) : Occurrence :=
  { name := ev.full_label
    location := ev.location
    beginDay := days_from_civil b.year b.month b.day
    beginHour := b.hour
    beginMinute := b.minute
    endDay := days_from_civil e.year e.month e.day
    endHour := e.hour
    endMinute := e.minute }

def advanceToWeekdayAux : Nat → Nat → Fin 7 → Nat
  | 0, c, _ => c
  | fuel + 1, c, t => if (c + 2) % 7 = t.val then c else advanceToWeekdayAux fuel (c + 1) t

/-- `while current.weekday() != target_weekday: current += timedelta(days=1)`
— the loop always stops within 7 steps since the target (a dict value)
is a valid weekday, so fuel 7 is exact. -/
def advanceToWeekday (c : Nat) (t : Fin 7) : Nat := advanceToWeekdayAux 7 c t

theorem advanceToWeekdayAux_closed : ∀ (fuel c : Nat) (t : Fin 7),
    (t.val + 7 - (c + 2) % 7) % 7 < fuel →
    advanceToWeekdayAux fuel c t = c + (t.val + 7 - (c + 2) % 7) % 7 := by
  intro fuel
  induction fuel with
  | zero => intro c t h; omega
  | succ f ih =>
    intro c t h
    have ht := t.isLt
    simp only [advanceToWeekdayAux]
    split_ifs with heq
    · omega
    · rw [ih (c + 1) t (by omega)]
      omega

/-- Closed form: the loop lands on the first day `≥ c` with the target
weekday. -/
theorem advanceToWeekday_closed (c : Nat) (t : Fin 7) :
    advanceToWeekday c t = c + (t.val + 7 - (c + 2) % 7) % 7 := by
  have ht := t.isLt
  exact advanceToWeekdayAux_closed 7 c t (by omega)

/-- The weekly `while current <= end_dt_global` loop (lines 157-172):
holiday weeks advance the stride without emitting; otherwise both
timestamp strings are re-parsed and an event is added.  A parse failure
raises, which the per-record `except` turns into abandoning the rest of
the record (occurrences already added stay in the calendar). -/
def expandRecurringAux : Nat → PEvent → Nat → Nat → List Nat → List Occurrence
  | 0, _, _, _, _ => []
  | fuel + 1, ev, c, e, holidays =>
    if c ≤ e then
      if isoWeek c ∈ holidays then expandRecurringAux fuel ev (c + 7) e holidays
      else
        match parseDateTime (fmtDate c ++ " " ++ ev.start_time),
              parseDateTime (fmtDate c ++ " " ++ ev.end_time) with
        | some b, some en => mkOccurrence ev b en :: expandRecurringAux fuel ev (c + 7) e holidays
        | _, _ => []
    else []

def expandRecurring (ev : PEvent) (c e : Nat) (holidays : List Nat) : List Occurrence :=
  expandRecurringAux (e + 1 - c) ev c e holidays

theorem expandRecurringAux_congr : ∀ (f1 f2 : Nat) (ev : PEvent) (c e : Nat)
    (holidays : List Nat), e + 1 - c ≤ f1 → e + 1 - c ≤ f2 →
    expandRecurringAux f1 ev c e holidays = expandRecurringAux f2 ev c e holidays := by
  intro f1
  induction f1 with
  | zero =>
    intro f2 ev c e holidays h1 h2
    cases f2 with
    | zero => rfl
    | succ g => simp only [expandRecurringAux]; rw [if_neg (by omega)]
  | succ f ih =>
    intro f2 ev c e holidays h1 h2
    cases f2 with
    | zero => simp only [expandRecurringAux]; rw [if_neg (by omega)]
    | succ g =>
      simp only [expandRecurringAux]
      split_ifs with hle hw
      · rw [ih g ev (c + 7) e holidays (by omega) (by omega)]
      · rcases parseDateTime (fmtDate c ++ " " ++ ev.start_time) with _ | b <;>
          rcases parseDateTime (fmtDate c ++ " " ++ ev.end_time) with _ | en <;>
          simp only [] <;>
          first
          | rw [ih g ev (c + 7) e holidays (by omega) (by omega)]
          | rfl
      · rfl

/-- The loop equation of the weekly `while current <= end_dt_global`
loop (lines 157-172): holiday weeks advance the stride without emitting;
otherwise both timestamp strings are re-parsed and an event is added.  A
parse failure raises, which the per-record `except` turns into
abandoning the rest of the record (occurrences already added stay in the
calendar). -/
theorem expandRecurring_eq (ev : PEvent) (c e : Nat) (holidays : List Nat) :
    expandRecurring ev c e holidays =
      if c ≤ e then
        if isoWeek c ∈ holidays then expandRecurring ev (c + 7) e holidays
        else
          match parseDateTime (fmtDate c ++ " " ++ ev.start_time),
                parseDateTime (fmtDate c ++ " " ++ ev.end_time) with
          | some b, some en => mkOccurrence ev b en :: expandRecurring ev (c + 7) e holidays
          | _, _ => []
      else [] := by
  simp only [expandRecurring]
  cases hf : e + 1 - c with
  | zero =>
    rw [if_neg (by omega)]
    rfl
  | succ f =>
    simp only [expandRecurringAux]
    split_ifs with hle hw
    · rw [expandRecurringAux_congr f (e + 1 - (c + 7)) ev (c + 7) e holidays (by omega) le_rfl]
    · rcases parseDateTime (fmtDate c ++ " " ++ ev.start_time) with _ | b <;>
        rcases parseDateTime (fmtDate c ++ " " ++ ev.end_time) with _ | en <;>
        simp only [] <;>
        first
        | rw [expandRecurringAux_congr f (e + 1 - (c + 7)) ev (c + 7) e holidays (by omega) le_rfl]
        | rfl
    · rfl

/-- The per-record body of `generate_ics` (the `try` block, lines
136-175): single events emit one occurrence from their own date string;
recurring events look up the weekday (a `KeyError` skips the record) and
expand weekly; all exceptions hit `except: continue`. -/
def expandEvent (ev : PEvent) (s e : Nat) (holidays : List Nat) : List Occurrence :=
  if ev.type = "single" then
    match parseDateTime (optStr ev.date ++ " " ++ ev.start_time),
          parseDateTime (optStr ev.date ++ " " ++ ev.end_time) with
    | some b, some en => [mkOccurrence ev b en]
    | _, _ => []
  else if ev.type = "recurring" then
    match weekday_map ev.weekday with
    | some t => expandRecurring ev (advanceToWeekday s t) e holidays
    | none => []
  else []

/-- `generate_ics` (lines 128-177), at the level of the events the
calendar accumulates; serialization is out of scope.  (`ics` events get
fresh unique ids, so the calendar's event set keeps one entry per
`add`.) -/
def generate_ics (selected_events : List PEvent) (s e : Nat) (holidays : List Nat) :
    List Occurrence :=
  selected_events.flatMap fun ev => expandEvent ev s e holidays

/-! ## Selection-page helpers (module level) -/

/-- The dedup signature (lines 313-314):
`f"{id}|{title}|{weekday}|{start_time}|{date}"`. -/
def eventSig (ev : PEvent) : String :=
  ev.id ++ "|" ++ ev.title ++ "|" ++ ev.weekday ++ "|" ++ ev.start_time ++ "|" ++ optStr ev.date

def dedupAux (seen : List String) : List PEvent → List PEvent
  | [] => []
  | ev :: rest =>
    if eventSig ev ∈ seen then dedupAux seen rest
    else ev :: dedupAux (eventSig ev :: seen) rest

/-- The pre-preview dedup loop (lines 306-320): keep the first event for
each signature, in order. -/
def dedupEvents (events : List PEvent) : List PEvent := dedupAux [] events

/-- One search token's filter (line 245):
`[e for e in all_events if e['id'].startswith(s_id)]`. -/
def filterById (events : List PEvent) (s_id : String) : List PEvent :=
  events.filter fun ev => pyStartswith ev.id s_id

/-! ## Auxiliary facts -/

theorem contains_iff_mem_nat (l : List Nat) (x : Nat) : l.contains x = true ↔ x ∈ l := by
  induction l with
  | nil => simp
  | cons a t ih => simp [List.contains_cons, Bool.or_eq_true, beq_iff_eq, List.mem_cons, ih]

theorem isPrefixOf_self (l : List Char) : l.isPrefixOf l = true := by
  induction l with
  | nil => rfl
  | cons a t ih => simp [List.isPrefixOf, ih]

/-! ## Claim C4: depth-sensitive title cleaning -/

/-- **C4.** For every identifier and raw title: with exactly one dot in
the identifier and a hyphen in the title, `clean_title_logic` returns the
stripped text before the first hyphen; with two or more dots it returns
the raw title stripped, hyphens notwithstanding. -/
theorem c4_depth_sensitive_title_cleaning (course_id raw_title : String) :
    (((course_id.data.filter (fun c => c == '.')).length = 1 →
        raw_title.data.contains '-' = true →
        clean_title_logic course_id raw_title =
          pyStrip (String.mk (raw_title.data.takeWhile (fun c => c ≠ '-'))))) ∧
    (2 ≤ (course_id.data.filter (fun c => c == '.')).length →
      clean_title_logic course_id raw_title = pyStrip raw_title) := by
  constructor
  · intro h1 h2
    simp only [clean_title_logic]
    rw [if_pos ⟨h1, h2⟩]
  · intro h
    simp only [clean_title_logic]
    rw [if_neg]
    rintro ⟨h1, -⟩
    omega

theorem c4_witness :
    clean_title_logic "1.3" "Anatomie - Grundlagen" = "Anatomie" ∧
    clean_title_logic "1.3.1" "Anatomie - Grundlagen" = "Anatomie - Grundlagen" := by
  constructor
  · rw [(c4_depth_sensitive_title_cleaning "1.3" "Anatomie - Grundlagen").1
      (by decide) (by decide)]
    decide
  · rw [(c4_depth_sensitive_title_cleaning "1.3.1" "Anatomie - Grundlagen").2 (by decide)]
    decide

/-! ## Claim C9: prefix-filter round trip -/

/-- **C9.** Filtering the extracted collection by a record's own full
identifier returns a set containing at least that record. -/
theorem c9_filter_roundtrip (events : List PEvent) (ev : PEvent) (h : ev ∈ events) :
    ev ∈ filterById events ev.id := by
  simp only [filterById, List.mem_filter]
  exact ⟨h, isPrefixOf_self ev.id.data⟩

def sampleSingleEvent : PEvent :=
  { id := "1.3.2", title := "Seminar A", full_label := "1.3.2 Seminar A",
    type := "single", date := some "05.01.2024", weekday := "Fr",
    start_time := "10:00", end_time := "12:00", location := "Raum B12" }

theorem c9_witness : sampleSingleEvent ∈ filterById [sampleSingleEvent] sampleSingleEvent.id :=
  c9_filter_roundtrip [sampleSingleEvent] sampleSingleEvent (by decide)

/-! ## Claim C6: full-record dedup key -/

def c6EventA : PEvent :=
  { id := "1.3.2", title := "Seminar A", full_label := "1.3.2 Seminar A",
    type := "recurring", date := none, weekday := "Di",
    start_time := "10:00", end_time := "12:00", location := "Raum B12" }

def c6EventB : PEvent :=
  { id := "1.3.2", title := "Seminar A", full_label := "1.3.2 Seminar A",
    type := "recurring", date := none, weekday := "Di",
    start_time := "10:00", end_time := "14:00", location := "Aula 2" }

/-- **C6, counterexample.** Two records differing in `end_time` (and
`location`) but agreeing on (identifier, title, weekday, start_time,
date) *do* collapse to one under the pre-emission dedup — refuting the
claim that the dedup key extends the (weekday, start_time, end_time,
location) signature, under which they would not collapse. -/
theorem c6_counterexample :
    c6EventA.end_time ≠ c6EventB.end_time ∧ c6EventA.location ≠ c6EventB.location ∧
      dedupEvents [c6EventA, c6EventB] = [c6EventA] := by decide

/-- **C6, amended.** The dedup key just before emission is (identifier,
title, weekday, start_time, date) — `end_time` and `location` are not
part of it: two records agreeing on those five fields collapse to the
first of them. -/
theorem c6_full_key_dedup (e1 e2 : PEvent) (h1 : e1.id = e2.id) (h2 : e1.title = e2.title)
    (h3 : e1.weekday = e2.weekday) (h4 : e1.start_time = e2.start_time)
    (h5 : e1.date = e2.date) :
    eventSig e1 = eventSig e2 ∧ dedupEvents [e1, e2] = [e1] := by
  have hsig : eventSig e1 = eventSig e2 := by
    simp only [eventSig, h1, h2, h3, h4, h5]
  refine ⟨hsig, ?_⟩
  simp only [dedupEvents, dedupAux]
  rw [if_neg (List.not_mem_nil _), if_pos]
  simp [hsig]

theorem c6_witness : eventSig c6EventA = eventSig c6EventB ∧
    dedupEvents [c6EventA, c6EventB] = [c6EventA] :=
  c6_full_key_dedup c6EventA c6EventB rfl rfl rfl rfl rfl

/-! ## Claim C1: empty holiday set -/

def c1BadDateEvent : PEvent :=
  { id := "1.3.2", title := "Seminar A", full_label := "1.3.2 Seminar A",
    type := "single", date := some "99.99.9999", weekday := "Fr",
    start_time := "10:00", end_time := "12:00", location := "TBA" }

/-- **C1, counterexample.** A ONE_OFF event whose date is present but
malformed (it fails to parse) still sets the `single_events_found` flag,
so `detect_holiday_weeks` walks the range with an empty active set and
reports every stride week as a holiday — not the empty set the claim
requires for an empty collected week set. -/
theorem c1_counterexample :
    parseDateOnly "99.99.9999" = none ∧
      detect_holiday_weeks [c1BadDateEvent]
        (days_from_civil 2024 1 1) (days_from_civil 2024 1 1) = [1] ∧
      detect_holiday_weeks [c1BadDateEvent]
        (days_from_civil 2024 1 1) (days_from_civil 2024 1 1) ≠ [] := by decide

/-- **C1, amended.** If no ONE_OFF session carries a present (non-empty)
date — in particular when there are zero ONE_OFF sessions — then
`detect_holiday_weeks` returns the empty holiday set regardless of the
semester range.  (When ONE_OFF sessions with dates exist but every date
is malformed, the code instead reports every stride week as a holiday;
see the counterexample.) -/
theorem c1_no_dated_singles_empty (events : List PEvent) (s e : Nat)
    (h : ∀ ev ∈ events, ev.type = "single" → dateTruthy ev.date = false) :
    detect_holiday_weeks events s e = [] := by
  have hflag : singleEventsFound events = false := by
    simp only [singleEventsFound, List.any_eq_false]
    intro ev hmem
    cases hc : ev.type == "single" with
    | false => simp [hc]
    | true =>
      have hty : ev.type = "single" := by simpa using hc
      simp [hc, h ev hmem hty]
  simp [detect_holiday_weeks, hflag]

def sampleRecurringDi : PEvent :=
  { id := "1.3", title := "Vorlesung", full_label := "1.3 Vorlesung",
    type := "recurring", date := none, weekday := "Di",
    start_time := "10:00", end_time := "12:00", location := "TBA" }

theorem c1_witness :
    detect_holiday_weeks [sampleRecurringDi]
      (days_from_civil 2024 1 1) (days_from_civil 2024 2 11) = [] :=
  c1_no_dated_singles_empty _ _ _ (by decide)

/-! ## Claim C3: the holiday-inference algorithm -/

theorem mem_strideDaysAux : ∀ (n s e x : Nat), e + 1 - s ≤ n →
    (x ∈ strideDays s e ↔ ∃ k, x = s + 7 * k ∧ x ≤ e) := by
  intro n
  induction n with
  | zero =>
    intro s e x h
    rw [strideDays_eq, if_neg (by omega)]
    constructor
    · intro hx
      exact absurd hx (List.not_mem_nil x)
    · rintro ⟨k, rfl, hle⟩
      exact absurd hle (by omega)
  | succ m ih =>
    intro s e x h
    rw [strideDays_eq]
    split_ifs with hse
    · rw [List.mem_cons, ih (s + 7) e x (by omega)]
      constructor
      · rintro (rfl | ⟨k, rfl, hk⟩)
        · exact ⟨0, by omega, hse⟩
        · exact ⟨k + 1, by omega, hk⟩
      · rintro ⟨k, rfl, hk⟩
        cases k with
        | zero => left; omega
        | succ j => right; exact ⟨j, by omega, hk⟩
    · constructor
      · intro hx
        exact absurd hx (List.not_mem_nil x)
      · rintro ⟨k, rfl, hle⟩
        exact absurd hle (by omega)

theorem mem_strideDays (s e x : Nat) :
    x ∈ strideDays s e ↔ ∃ k, x = s + 7 * k ∧ x ≤ e :=
  mem_strideDaysAux (e + 1 - s) s e x le_rfl

theorem mem_insertNoDup (x y : Nat) (l : List Nat) :
    y ∈ insertNoDup x l ↔ y = x ∨ y ∈ l := by
  induction l with
  | nil => simp [insertNoDup]
  | cons a t ih =>
    simp only [insertNoDup]
    split_ifs with h1 h2
    · simp only [List.mem_cons]
    · subst h2
      simp only [List.mem_cons]
      tauto
    · simp only [List.mem_cons, ih]
      tauto

theorem mem_sortedDedup (l : List Nat) (x : Nat) : x ∈ sortedDedup l ↔ x ∈ l := by
  induction l with
  | nil => simp [sortedDedup]
  | cons a t ih =>
    show x ∈ insertNoDup a (sortedDedup t) ↔ _
    rw [mem_insertNoDup, ih, List.mem_cons]

theorem sorted_insertNoDup (x : Nat) (l : List Nat) (h : l.Sorted (· < ·)) :
    (insertNoDup x l).Sorted (· < ·) := by
  induction l with
  | nil => simp [insertNoDup]
  | cons a t ih =>
    rw [List.sorted_cons] at h
    obtain ⟨ha, ht⟩ := h
    simp only [insertNoDup]
    split_ifs with h1 h2
    · rw [List.sorted_cons]
      constructor
      · intro b hb
        rcases List.mem_cons.mp hb with rfl | hb
        · exact h1
        · exact lt_trans h1 (ha b hb)
      · rw [List.sorted_cons]
        exact ⟨ha, ht⟩
    · rw [List.sorted_cons]
      exact ⟨ha, ht⟩
    · rw [List.sorted_cons]
      constructor
      · intro b hb
        rcases (mem_insertNoDup x b t).mp hb with rfl | hb
        · omega
        · exact ha b hb
      · exact ih ht

theorem sorted_sortedDedup (l : List Nat) : (sortedDedup l).Sorted (· < ·) := by
  induction l with
  | nil => simp [sortedDedup]
  | cons a t ih => exact sorted_insertNoDup a (sortedDedup t) ih

theorem singleEventsFound_of_active (events : List PEvent)
    (h : activeWeeks events ≠ []) : singleEventsFound events = true := by
  obtain ⟨w, hw⟩ := List.exists_mem_of_ne_nil _ h
  obtain ⟨ev, hmem, hf⟩ := List.mem_filterMap.mp hw
  simp only [singleEventsFound, List.any_eq_true]
  refine ⟨ev, hmem, ?_⟩
  cases hc : (ev.type == "single" && dateTruthy ev.date) with
  | true => rfl
  | false =>
    rw [hc] at hf
    simp at hf

/-- **C3.** When at least one ONE_OFF date parses (the collected active
set is non-empty), `detect_holiday_weeks` returns exactly the strictly
sorted, duplicate-free list of the ISO week numbers of the 7-day strides
from `semester_start` through `semester_end` that are absent from the
active set. -/
theorem c3_holiday_inference (events : List PEvent) (s e : Nat)
    (h : activeWeeks events ≠ []) :
    (∀ w, w ∈ detect_holiday_weeks events s e ↔
      (∃ k, s + 7 * k ≤ e ∧ isoWeek (s + 7 * k) = w ∧ w ∉ activeWeeks events)) ∧
    (detect_holiday_weeks events s e).Sorted (· < ·) := by
  have hflag := singleEventsFound_of_active events h
  simp only [detect_holiday_weeks, hflag, if_true]
  constructor
  · intro w
    rw [mem_sortedDedup, List.mem_filter, List.mem_map]
    constructor
    · rintro ⟨⟨d, hd, rfl⟩, hw⟩
      obtain ⟨k, rfl, hk⟩ := (mem_strideDays s e d).mp hd
      refine ⟨k, hk, rfl, ?_⟩
      intro hmem
      rw [Bool.not_eq_eq_eq_not, Bool.not_true] at hw
      rw [← contains_iff_mem_nat] at hmem
      rw [hmem] at hw
      simp at hw
    · rintro ⟨k, hk, rfl, hnm⟩
      refine ⟨⟨s + 7 * k, (mem_strideDays s e _).mpr ⟨k, rfl, hk⟩, rfl⟩, ?_⟩
      rw [Bool.not_eq_eq_eq_not, Bool.not_true]
      cases hc : (activeWeeks events).contains (isoWeek (s + 7 * k)) with
      | false => rfl
      | true => exact absurd (contains_iff_mem_nat _ _ |>.mp hc) hnm
  · exact sorted_sortedDedup _

def c3Events : List PEvent :=
  [{ id := "2.1", title := "Blockkurs", full_label := "2.1 Blockkurs",
     type := "single", date := some "10.01.2024", weekday := "Mi",
     start_time := "10:00", end_time := "12:00", location := "TBA" },
   { id := "2.1", title := "Blockkurs", full_label := "2.1 Blockkurs",
     type := "single", date := some "24.01.2024", weekday := "Mi",
     start_time := "10:00", end_time := "12:00", location := "TBA" },
   { id := "2.1", title := "Blockkurs", full_label := "2.1 Blockkurs",
     type := "single", date := some "07.02.2024", weekday := "Mi",
     start_time := "10:00", end_time := "12:00", location := "TBA" }]

theorem c3_witness :
    detect_holiday_weeks c3Events (days_from_civil 2024 1 1) (days_from_civil 2024 2 11) =
      [1, 3, 5] ∧
    activeWeeks c3Events = [2, 4, 6] ∧
    (detect_holiday_weeks c3Events (days_from_civil 2024 1 1)
      (days_from_civil 2024 2 11)).Sorted (· < ·) := by
  refine ⟨by decide, by decide, ?_⟩
  exact (c3_holiday_inference c3Events _ _ (by decide)).2

/-! ## Claim C7: location resolution -/

/-- Scanning character-by-character finds the leftmost pattern match, and
reports `none` exactly when no position matches. -/
theorem findLocAux_spec (l : List Char) :
    (∀ m, findLocAux l = some m →
      ∃ i, matchLocAt (l.drop i) = some m ∧ ∀ j < i, matchLocAt (l.drop j) = none) ∧
    (findLocAux l = none → ∀ i, matchLocAt (l.drop i) = none) := by
  induction l with
  | nil =>
    constructor
    · intro m hm
      simp [findLocAux] at hm
    · intro _ i
      rw [List.drop_nil]
      rfl
  | cons c rest ih =>
    constructor
    · intro m hm
      simp only [findLocAux] at hm
      split_ifs at hm with hs
      · refine ⟨0, ?_, ?_⟩
        · rw [List.drop_zero]
          exact hm
        · intro j hj
          omega
      · obtain ⟨i, hi, hmin⟩ := ih.1 m hm
        refine ⟨i + 1, ?_, ?_⟩
        · rw [List.drop_succ_cons]
          exact hi
        · intro j hj
          cases j with
          | zero =>
            rw [List.drop_zero]
            rcases hM : matchLocAt (c :: rest) with _ | m0
            · rfl
            · rw [hM] at hs
              simp at hs
          | succ j0 =>
            rw [List.drop_succ_cons]
            exact hmin j0 (by omega)
    · intro hm i
      simp only [findLocAux] at hm
      split_ifs at hm with hs
      · rcases hM : matchLocAt (c :: rest) with _ | m0
        · rw [hM] at hs
          simp at hs
        · rw [hM] at hm
          simp at hm
      · cases i with
        | zero =>
          rw [List.drop_zero]
          rcases hM : matchLocAt (c :: rest) with _ | m0
          · rfl
          · rw [hM] at hs
            simp at hs
        | succ j0 =>
          rw [List.drop_succ_cons]
          exact ih.2 hm j0

/-- **C7, counterexample.** A block with no location-keyword match gives
the session the sentinel `"TBA"`, not `"unknown location"` as the claim
states. -/
theorem c7_counterexample :
    blockDefaultLocation ["1.2 Kurs", "Mo 10:00 - 12:00"] = "TBA" ∧
    lineLocation "Mo 10:00 - 12:00"
      (blockDefaultLocation ["1.2 Kurs", "Mo 10:00 - 12:00"]) ≠ "unknown location" := by
  decide

/-- **C7, amended.** The block default location is the leftmost match of
the `(Raum|Aula|Hörsaal)\s+[\w\.]+` pattern over the joined block text; a
line-local match of the same pattern overrides the block default; and
when no match exists in block or line the sentinel is `"TBA"`. -/
theorem c7_location_resolution :
    (∀ (s m : String), findLoc s = some m →
      ∃ i, matchLocAt (s.data.drop i) = some m.data ∧
        ∀ j < i, matchLocAt (s.data.drop j) = none) ∧
    (∀ s : String, findLoc s = none → ∀ i, matchLocAt (s.data.drop i) = none) ∧
    (∀ (line default_location m : String), findLoc line = some m →
      lineLocation line default_location = m) ∧
    (∀ line default_location : String, findLoc line = none →
      lineLocation line default_location = default_location) ∧
    (∀ (block_lines : List String) (m : String),
      findLoc (String.intercalate "\n" block_lines) = some m →
      blockDefaultLocation block_lines = m) ∧
    (∀ block_lines : List String,
      findLoc (String.intercalate "\n" block_lines) = none →
      blockDefaultLocation block_lines = "TBA") := by
  refine ⟨?_, ?_, ?_, ?_, ?_, ?_⟩
  · intro s m hm
    simp only [findLoc] at hm
    rcases hA : findLocAux s.data with _ | l0
    · rw [hA] at hm
      simp at hm
    · rw [hA] at hm
      simp only [Option.map_some', Option.some.injEq] at hm
      subst hm
      obtain ⟨i, hi, hmin⟩ := (findLocAux_spec s.data).1 l0 hA
      exact ⟨i, hi, hmin⟩
  · intro s hm i
    simp only [findLoc] at hm
    rcases hA : findLocAux s.data with _ | l0
    · exact (findLocAux_spec s.data).2 hA i
    · rw [hA] at hm
      simp at hm
  · intro line dflt m hm
    simp only [lineLocation, hm]
  · intro line dflt hm
    simp only [lineLocation, hm]
  · intro bl m hm
    simp only [blockDefaultLocation, hm]
  · intro bl hm
    simp only [blockDefaultLocation, hm]

theorem c7_witness :
    (∃ i, matchLocAt (("Kurs im Raum B12" : String).data.drop i) =
        some (("Raum B12" : String).data) ∧
      ∀ j < i, matchLocAt (("Kurs im Raum B12" : String).data.drop j) = none) ∧
    lineLocation "Treffen in Aula 2" "TBA" = "Aula 2" ∧
    blockDefaultLocation ["1.2 Kurs"] = "TBA" := by
  refine ⟨?_, ?_, ?_⟩
  · exact c7_location_resolution.1 "Kurs im Raum B12" "Raum B12" (by decide)
  · exact c7_location_resolution.2.2.1 "Treffen in Aula 2" "TBA" "Aula 2" (by decide)
  · exact c7_location_resolution.2.2.2.2.2 ["1.2 Kurs"] (by decide)

/-! ## Claim C8: two-digit year normalization -/

theorem isDigit_ne_dot (ch : Char) (h : ch.isDigit = true) : ¬(ch = '.') := by
  intro he
  subst he
  exact absurd h (by decide)

theorem splitDots_shape (a b c d e f : Char) (ha : a ≠ '.') (hb : b ≠ '.')
    (hc : c ≠ '.') (hd : d ≠ '.') (he : e ≠ '.') (hf : f ≠ '.') :
    splitDots [a, b, '.', c, d, '.', e, f] = [[a, b], [c, d], [e, f]] := by
  simp [splitDots, ha, hb, hc, hd, he, hf]

/-- **C8.** A matched date token with a two-digit year (shape
`dd.mm.yy`) is stored with `"20"` prefixed to the year, the record's kind
is ONE_OFF (`"single"`), and — whenever the normalized date and the
record's times parse — expanding the record emits exactly one occurrence
built from that parsed date and those times. -/
theorem c8_two_digit_year (a b c d e f : Char)
    (ha : a.isDigit = true) (hb : b.isDigit = true) (hc : c.isDigit = true)
    (hd : d.isDigit = true) (he : e.isDigit = true) (hf : f.isDigit = true)
    (course_id final_title weekday start_time end_time location : String) :
    (mkEvent course_id final_title weekday (some (String.mk [a, b, '.', c, d, '.', e, f]))
        start_time end_time location).date =
      some (String.mk [a, b, '.', c, d, '.', '2', '0', e, f]) ∧
    (mkEvent course_id final_title weekday (some (String.mk [a, b, '.', c, d, '.', e, f]))
        start_time end_time location).type = "single" ∧
    (∀ (s e' : Nat) (hol : List Nat) (bdt edt : PDateTime),
      parseDateTime (String.mk [a, b, '.', c, d, '.', '2', '0', e, f] ++ " " ++
        (mkEvent course_id final_title weekday (some (String.mk [a, b, '.', c, d, '.', e, f]))
          start_time end_time location).start_time) = some bdt →
      parseDateTime (String.mk [a, b, '.', c, d, '.', '2', '0', e, f] ++ " " ++
        (mkEvent course_id final_title weekday (some (String.mk [a, b, '.', c, d, '.', e, f]))
          start_time end_time location).end_time) = some edt →
      generate_ics [mkEvent course_id final_title weekday
          (some (String.mk [a, b, '.', c, d, '.', e, f])) start_time end_time location] s e' hol =
        [mkOccurrence (mkEvent course_id final_title weekday
          (some (String.mk [a, b, '.', c, d, '.', e, f])) start_time end_time location) bdt edt]) := by
  have hnd : normalizeDate (String.mk [a, b, '.', c, d, '.', e, f]) =
      String.mk [a, b, '.', c, d, '.', '2', '0', e, f] := by
    have hsplit : splitDots (String.mk [a, b, '.', c, d, '.', e, f]).data =
        [[a, b], [c, d], [e, f]] :=
      splitDots_shape a b c d e f (isDigit_ne_dot a ha) (isDigit_ne_dot b hb)
        (isDigit_ne_dot c hc) (isDigit_ne_dot d hd) (isDigit_ne_dot e he) (isDigit_ne_dot f hf)
    simp only [normalizeDate, hsplit]
    rfl
  have hdate : (mkEvent course_id final_title weekday
      (some (String.mk [a, b, '.', c, d, '.', e, f])) start_time end_time location).date =
      some (String.mk [a, b, '.', c, d, '.', '2', '0', e, f]) := by
    simp only [mkEvent, Option.map_some', hnd]
  have htype : (mkEvent course_id final_title weekday
      (some (String.mk [a, b, '.', c, d, '.', e, f])) start_time end_time location).type =
      "single" := by
    simp only [mkEvent, Option.map_some', Option.isSome_some, if_true]
  refine ⟨hdate, htype, ?_⟩
  intro s e' hol bdt edt hpb hpe
  simp only [generate_ics, List.flatMap_cons, List.flatMap_nil, List.append_nil]
  simp only [expandEvent, htype, if_pos]
  have hopt : optStr (mkEvent course_id final_title weekday
      (some (String.mk [a, b, '.', c, d, '.', e, f])) start_time end_time location).date =
      String.mk [a, b, '.', c, d, '.', '2', '0', e, f] := by
    rw [hdate]
    rfl
  rw [hopt, hpb, hpe]

theorem c8_witness :
    (mkEvent "1.3.2" "Seminar" "Fr" (some "05.01.24") "10:00" "12:00" "TBA").date =
      some "05.01.2024" ∧
    (mkEvent "1.3.2" "Seminar" "Fr" (some "05.01.24") "10:00" "12:00" "TBA").type = "single" ∧
    generate_ics [mkEvent "1.3.2" "Seminar" "Fr" (some "05.01.24") "10:00" "12:00" "TBA"]
        0 0 [] =
      [mkOccurrence (mkEvent "1.3.2" "Seminar" "Fr" (some "05.01.24") "10:00" "12:00" "TBA")
        ⟨2024, 1, 5, 10, 0⟩ ⟨2024, 1, 5, 12, 0⟩] ∧
    (generate_ics [mkEvent "1.3.2" "Seminar" "Fr" (some "05.01.24") "10:00" "12:00" "TBA"]
        0 0 []).map Occurrence.beginDay = [days_from_civil 2024 1 5] := by
  obtain ⟨h1, h2, h3⟩ := c8_two_digit_year '0' '5' '0' '1' '2' '4'
    (by decide) (by decide) (by decide) (by decide) (by decide) (by decide)
    "1.3.2" "Seminar" "Fr" "10:00" "12:00" "TBA"
  have h4 := h3 0 0 [] ⟨2024, 1, 5, 10, 0⟩ ⟨2024, 1, 5, 12, 0⟩ (by decide) (by decide)
  exact ⟨h1, h2, h4, by rw [h4]; decide⟩

/-! ## Claim C5: error containment during expansion -/

/-- If a recurring record's time strings cannot parse, no stride of the
weekly loop ever emits: the first non-holiday stride raises and the
record is abandoned with nothing accumulated. -/
theorem expandRecurring_time_none_aux (ev : PEvent) (e : Nat) (hol : List Nat)
    (hfail : parseTimeTail (' ' :: ev.start_time.data) = none ∨
      parseTimeTail (' ' :: ev.end_time.data) = none) :
    ∀ n c, e + 1 - c ≤ n → expandRecurring ev c e hol = [] := by
  intro n
  induction n with
  | zero =>
    intro c h
    rw [expandRecurring_eq, if_neg (by omega)]
  | succ m ih =>
    intro c h
    rw [expandRecurring_eq]
    split_ifs with hle hw
    · exact ih (c + 7) (by omega)
    · rcases hpb : parseDateTime (fmtDate c ++ " " ++ ev.start_time) with _ | b <;>
        rcases hpe : parseDateTime (fmtDate c ++ " " ++ ev.end_time) with _ | en
      · rfl
      · rfl
      · rfl
      · exfalso
        rcases hfail with hf | hf
        · have := (parseDateTime_fmt_inv c ev.start_time b hpb).2.2.2
          rw [hf] at this
          simp at this
        · have := (parseDateTime_fmt_inv c ev.end_time en hpe).2.2.2
          rw [hf] at this
          simp at this
    · rfl

def c5BadWeekdayEvent : PEvent :=
  { id := "3.1", title := "Kolloquium", full_label := "3.1 Kolloquium",
    type := "single", date := some "05.01.2024", weekday := "Zz",
    start_time := "10:00", end_time := "11:00", location := "TBA" }

/-- **C5, counterexample.** A ONE_OFF record with an unrecognized weekday
abbreviation still emits its occurrence — the weekday map is consulted
only in the recurring branch — so "a record whose weekday abbreviation is
not in {Mo..So} ... contributes no occurrence" fails as stated. -/
theorem c5_counterexample :
    weekday_map c5BadWeekdayEvent.weekday = none ∧
    (generate_ics [c5BadWeekdayEvent] 0 0 []).length = 1 ∧
    generate_ics [c5BadWeekdayEvent] 0 0 [] ≠ [] := by decide

/-- **C5, amended.** For every batch: a RECURRING record whose weekday
abbreviation is not in the map, or whose time strings fail to parse, and
a ONE_OFF record whose date/time strings fail to parse, contribute no
occurrence; `generate_ics` (a total function — every `strptime`
`ValueError` and `KeyError` lands in the per-record `except: continue`)
leaves the occurrences of all other records in the batch unchanged. -/
theorem c5_error_containment (xs ys : List PEvent) (ev : PEvent) (s e : Nat) (hol : List Nat)
    (hfault :
      (ev.type = "recurring" ∧ weekday_map ev.weekday = none) ∨
      (ev.type = "recurring" ∧ (parseTimeTail (' ' :: ev.start_time.data) = none ∨
        parseTimeTail (' ' :: ev.end_time.data) = none)) ∨
      (ev.type = "single" ∧ (parseDateTime (optStr ev.date ++ " " ++ ev.start_time) = none ∨
        parseDateTime (optStr ev.date ++ " " ++ ev.end_time) = none))) :
    expandEvent ev s e hol = [] ∧
    generate_ics (xs ++ ev :: ys) s e hol = generate_ics (xs ++ ys) s e hol := by
  have hskip : expandEvent ev s e hol = [] := by
    rcases hfault with ⟨hty, hwd⟩ | ⟨hty, htime⟩ | ⟨hty, hdt⟩
    · simp only [expandEvent, hty]
      rw [if_neg (by decide), if_pos trivial, hwd]
    · simp only [expandEvent, hty]
      rw [if_neg (by decide), if_pos trivial]
      rcases hW : weekday_map ev.weekday with _ | t
      · rfl
      · exact expandRecurring_time_none_aux ev e hol htime _ _ le_rfl
    · simp only [expandEvent, hty]
      rw [if_pos trivial]
      rcases hpb : parseDateTime (optStr ev.date ++ " " ++ ev.start_time) with _ | b <;>
        rcases hpe : parseDateTime (optStr ev.date ++ " " ++ ev.end_time) with _ | en
      · rfl
      · rfl
      · rfl
      · exfalso
        rcases hdt with hd | hd
        · rw [hd] at hpb
          exact Option.noConfusion hpb
        · rw [hd] at hpe
          exact Option.noConfusion hpe
  refine ⟨hskip, ?_⟩
  simp only [generate_ics, List.flatMap_append, List.flatMap_cons, hskip, List.nil_append]

def c5BadTimeEvent : PEvent :=
  { id := "3.2", title := "Uebung", full_label := "3.2 Uebung",
    type := "recurring", date := none, weekday := "Mo",
    start_time := "zehn", end_time := "11:00", location := "TBA" }

theorem c5_witness :
    expandEvent c5BadTimeEvent (days_from_civil 2024 1 1) (days_from_civil 2024 2 11) [] = [] ∧
    generate_ics ([sampleRecurringDi] ++ c5BadTimeEvent :: [sampleSingleEvent])
        (days_from_civil 2024 1 1) (days_from_civil 2024 2 11) [] =
      generate_ics ([sampleRecurringDi] ++ [sampleSingleEvent])
        (days_from_civil 2024 1 1) (days_from_civil 2024 2 11) [] :=
  c5_error_containment [sampleRecurringDi] [sampleSingleEvent] c5BadTimeEvent
    (days_from_civil 2024 1 1) (days_from_civil 2024 2 11) []
    (Or.inr (Or.inl ⟨rfl, Or.inl (by decide)⟩))

/-! ## Claim C2: recurring expansion with holiday skipping -/

/-- The begin days emitted by the weekly loop are exactly the 7-day
stride days whose ISO week is not a holiday, provided both time strings
parse and the stride stays in the four-digit-year range. -/
theorem expandRecurring_days_aux (ev : PEvent) (e : Nat) (hol : List Nat)
    (p q : Nat × Nat)
    (hpb : parseTimeTail (' ' :: ev.start_time.data) = some p)
    (hpe : parseTimeTail (' ' :: ev.end_time.data) = some q)
    (he10000 : e < days_from_civil 10000 1 1) :
    ∀ n c, e + 1 - c ≤ n → days_from_civil 1000 1 1 ≤ c →
      (expandRecurring ev c e hol).map Occurrence.beginDay =
        (strideDays c e).filter fun d => !(hol.contains (isoWeek d)) := by
  intro n
  induction n with
  | zero =>
    intro c h hc
    rw [expandRecurring_eq, if_neg (by omega), strideDays_eq, if_neg (by omega)]
    rfl
  | succ m ih =>
    intro c h hc
    rw [expandRecurring_eq, strideDays_eq]
    split_ifs with hle hw
    · have hcT : hol.contains (isoWeek c) = true := (contains_iff_mem_nat _ _).mpr hw
      have hfilter : List.filter (fun d => !(hol.contains (isoWeek d))) (c :: strideDays (c + 7) e) =
          List.filter (fun d => !(hol.contains (isoWeek d))) (strideDays (c + 7) e) := by
        simp [List.filter_cons, hcT, hw]
      rw [hfilter]
      exact ih (c + 7) (by omega) (by omega)
    · have hcF : hol.contains (isoWeek c) = false := by
        cases hcc : hol.contains (isoWeek c)
        · rfl
        · exact absurd ((contains_iff_mem_nat hol (isoWeek c)).mp hcc) hw
      have hfilter : List.filter (fun d => !(hol.contains (isoWeek d))) (c :: strideDays (c + 7) e) =
          c :: List.filter (fun d => !(hol.contains (isoWeek d))) (strideDays (c + 7) e) := by
        simp [List.filter_cons, hcF, hw]
      have hps : parseDateTime (fmtDate c ++ " " ++ ev.start_time) =
          some ⟨(civil_from_days c).1, (civil_from_days c).2.1, (civil_from_days c).2.2,
            p.1, p.2⟩ := by
        rw [parseDateTime_fmt c ev.start_time hc (by omega), hpb, Option.map_some']
      have hpsE : parseDateTime (fmtDate c ++ " " ++ ev.end_time) =
          some ⟨(civil_from_days c).1, (civil_from_days c).2.1, (civil_from_days c).2.2,
            q.1, q.2⟩ := by
        rw [parseDateTime_fmt c ev.end_time hc (by omega), hpe, Option.map_some']
      rw [hps, hpsE, hfilter]
      simp only [List.map_cons]
      congr 1
      · exact days_from_civil_inv c
      · exact ih (c + 7) (by omega) (by omega)
    · rfl

/-- **C2.** For every RECURRING record with a recognized weekday whose
time strings parse: expansion starts at the first day on or after the
semester start falling on the record's weekday (day-by-day advance:
correct weekday, not before start, and no earlier day qualifies), then
walks in 7-day strides through the end date inclusive; the emitted begin
days are exactly the stride days whose ISO week number is not in the
holiday set — a holiday stride emits nothing but the stride continues. -/
theorem c2_recurring_expansion (ev : PEvent) (s e : Nat) (hol : List Nat) (t : Fin 7)
    (hty : ev.type = "recurring") (hwd : weekday_map ev.weekday = some t)
    (p q : Nat × Nat)
    (hst : parseTimeTail (' ' :: ev.start_time.data) = some p)
    (het : parseTimeTail (' ' :: ev.end_time.data) = some q)
    (hs : days_from_civil 1000 1 1 ≤ s) (he : e < days_from_civil 10000 1 1) :
    pyWeekday (advanceToWeekday s t) = t.val ∧
    s ≤ advanceToWeekday s t ∧
    (∀ c, s ≤ c → c < advanceToWeekday s t → pyWeekday c ≠ t.val) ∧
    (generate_ics [ev] s e hol).map Occurrence.beginDay =
      (strideDays (advanceToWeekday s t) e).filter fun d => !(hol.contains (isoWeek d)) := by
  have hcl := advanceToWeekday_closed s t
  have ht7 := t.isLt
  refine ⟨?_, ?_, ?_, ?_⟩
  · simp only [pyWeekday]
    omega
  · omega
  · intro c h1 h2
    simp only [pyWeekday]
    omega
  · simp only [generate_ics, List.flatMap_cons, List.flatMap_nil, List.append_nil]
    simp only [expandEvent, hty]
    rw [if_neg (by decide), if_pos trivial, hwd]
    exact expandRecurring_days_aux ev e hol p q hst het he
      (e + 1 - advanceToWeekday s t) (advanceToWeekday s t) le_rfl (by omega)

theorem c2_witness :
    (pyWeekday (advanceToWeekday (days_from_civil 2024 1 1) 1) = (1 : Fin 7).val ∧
      days_from_civil 2024 1 1 ≤ advanceToWeekday (days_from_civil 2024 1 1) 1 ∧
      (∀ c, days_from_civil 2024 1 1 ≤ c → c < advanceToWeekday (days_from_civil 2024 1 1) 1 →
        pyWeekday c ≠ (1 : Fin 7).val) ∧
      (generate_ics [sampleRecurringDi] (days_from_civil 2024 1 1)
          (days_from_civil 2024 2 11) [3]).map Occurrence.beginDay =
        (strideDays (advanceToWeekday (days_from_civil 2024 1 1) 1)
          (days_from_civil 2024 2 11)).filter
            fun d => !(([3] : List Nat).contains (isoWeek d))) ∧
    (generate_ics [sampleRecurringDi] (days_from_civil 2024 1 1)
      (days_from_civil 2024 2 11) [3]).length = 5 ∧
    (generate_ics [sampleRecurringDi] (days_from_civil 2024 1 1)
      (days_from_civil 2024 2 11) [3]).all (fun o => !(isoWeek o.beginDay == 3)) = true :=
  ⟨c2_recurring_expansion sampleRecurringDi (days_from_civil 2024 1 1)
      (days_from_civil 2024 2 11) [3] 1 rfl (by decide) (10, 0) (12, 0)
      (by decide) (by decide) (by decide) (by decide),
    by decide, by decide⟩

/-! ## Claim C10: invariants of recurring expansion -/

/-- Every occurrence the weekly loop emits sits a whole number of weeks
after the loop's start, no later than the end date, and outside the
holiday weeks — with no range assumptions on the dates involved. -/
theorem expandRecurring_mem_aux (ev : PEvent) (e : Nat) (hol : List Nat) :
    ∀ n c, e + 1 - c ≤ n → ∀ o ∈ expandRecurring ev c e hol,
      ∃ k, o.beginDay = c + 7 * k ∧ o.beginDay ≤ e ∧ isoWeek o.beginDay ∉ hol := by
  intro n
  induction n with
  | zero =>
    intro c h o ho
    rw [expandRecurring_eq, if_neg (by omega)] at ho
    simp at ho
  | succ m ih =>
    intro c h o ho
    rw [expandRecurring_eq] at ho
    split_ifs at ho with hle hw
    · obtain ⟨k, h1, h2, h3⟩ := ih (c + 7) (by omega) o ho
      exact ⟨k + 1, by omega, h2, h3⟩
    · rcases hpb : parseDateTime (fmtDate c ++ " " ++ ev.start_time) with _ | b
      · rw [hpb] at ho
        simp at ho
      · rcases hpe : parseDateTime (fmtDate c ++ " " ++ ev.end_time) with _ | en
        · rw [hpb, hpe] at ho
          simp at ho
        · rw [hpb, hpe] at ho
          simp only [List.mem_cons] at ho
          rcases ho with rfl | ho
          · obtain ⟨hy, hm, hd, -⟩ := parseDateTime_fmt_inv c ev.start_time b hpb
            have hbd : (mkOccurrence ev b en).beginDay = c := by
              show days_from_civil b.year b.month b.day = c
              rw [hy, hm, hd]
              exact days_from_civil_inv c
            exact ⟨0, by omega, by omega, by rw [hbd]; exact hw⟩
          · obtain ⟨k, h1, h2, h3⟩ := ih (c + 7) (by omega) o ho
            exact ⟨k + 1, by omega, h2, h3⟩
    · simp at ho

/-- **C10.** For every RECURRING record whose weekday abbreviation is in
the map and whose time strings parse, every emitted occurrence falls on
the record's weekday, lies in [semester start, semester end], has an ISO
week number outside the supplied holiday set, and any two emitted
occurrences are a whole multiple of 7 days apart. -/
theorem c10_recurring_invariants (ev : PEvent) (s e : Nat) (hol : List Nat) (t : Fin 7)
    (hty : ev.type = "recurring") (hwd : weekday_map ev.weekday = some t)
    ( _hst : (parseTimeTail (' ' :: ev.start_time.data)).isSome = true)
    ( _het : (parseTimeTail (' ' :: ev.end_time.data)).isSome = true) :
    ∀ o ∈ generate_ics [ev] s e hol,
      pyWeekday o.beginDay = t.val ∧ s ≤ o.beginDay ∧ o.beginDay ≤ e ∧
      isoWeek o.beginDay ∉ hol ∧
      ∀ o2 ∈ generate_ics [ev] s e hol, (o.beginDay - o2.beginDay) % 7 = 0 := by
  have hred : generate_ics [ev] s e hol = expandRecurring ev (advanceToWeekday s t) e hol := by
    simp only [generate_ics, List.flatMap_cons, List.flatMap_nil, List.append_nil]
    simp only [expandEvent, hty]
    rw [if_neg (by decide), if_pos trivial, hwd]
  rw [hred]
  intro o ho
  obtain ⟨k, h1, h2, h3⟩ := expandRecurring_mem_aux ev e hol _ _ le_rfl o ho
  have hcl := advanceToWeekday_closed s t
  have ht7 := t.isLt
  refine ⟨?_, ?_, h2, h3, ?_⟩
  · simp only [pyWeekday]
    omega
  · omega
  · intro o2 ho2
    obtain ⟨k2, h1b, -, -⟩ := expandRecurring_mem_aux ev e hol _ _ le_rfl o2 ho2
    omega

def occDefault : Occurrence :=
  { name := "", location := "", beginDay := 0, beginHour := 0, beginMinute := 0,
    endDay := 0, endHour := 0, endMinute := 0 }

def c10Occ : Occurrence :=
  (generate_ics [sampleRecurringDi] (days_from_civil 2024 1 1)
    (days_from_civil 2024 2 11) [3]).headD occDefault

theorem c10_witness :
    pyWeekday c10Occ.beginDay = (1 : Fin 7).val ∧
    days_from_civil 2024 1 1 ≤ c10Occ.beginDay ∧
    c10Occ.beginDay ≤ days_from_civil 2024 2 11 ∧
    isoWeek c10Occ.beginDay ∉ [3] :=
  have h := c10_recurring_invariants sampleRecurringDi (days_from_civil 2024 1 1)
    (days_from_civil 2024 2 11) [3] 1 rfl (by decide) (by decide) (by decide)
    c10Occ (by decide)
  ⟨h.1, h.2.1, h.2.2.1, h.2.2.2.1⟩
